import Mathlib

/-!
# GoTask: the task registry of `server.go`

A shallow embedding of `server.go`: the record `TaskUnit`, the package-level
variables `queue` and `wg`, the runner loop `execute` and the two remotely
callable methods `(*TaskUnit).Add` and `(*TaskUnit).Delete`.

Go values are embedded as follows.

* `chan bool` is a reference into a channel heap.  The heap is the list
  `chans`; channel `id` is closed iff `chans[id] = true`.  `make` allocates the
  next index, `nil` is `none`.  No statement of the program ever sends on a
  channel, so open/closed is the whole state of a channel.
* `close(c)` panics on a `nil` channel and on a closed channel.
* `fmt.Println` appends one line to `out`.
* `go execute(*t)` records the copied handle in `spawned`.
* `sync.WaitGroup` is its counter; `Done` panics when the counter would
  become negative.
* `sync.Mutex` is the flag `locked` of the interleaving semantics (`step`,
  `runSched`).  In a call served alone the mutex is free on entry and released
  before the return, so `Add` and `Delete` below pass over `Lock` and
  `Unlock`; `solo_Add` and `solo_Delete` relate the two semantics.
-/

namespace GoTask

/-- The Go struct `TaskUnit` (server.go, lines 19-22). -/
structure TaskUnit where
  TaskName : String
  TaskDoneChan : Option Nat
  deriving DecidableEq, Repr

/-- The process state: the package variables `queue` and `wg`, the receiver
registered by `rpc.Register(new(TaskUnit))`, the channel heap, standard output
and the goroutines started so far. -/
structure State where
  queue : List TaskUnit
  t : TaskUnit
  chans : List Bool
  wg : Nat
  out : List String
  spawned : List TaskUnit
  deriving DecidableEq, Repr

/-- The state in which `main` starts serving: `queue` is the nil slice, the
receiver is `new(TaskUnit)`, whose fields are zero values. -/
def init : State :=
  { queue := [], t := { TaskName := "", TaskDoneChan := none }, chans := [],
    wg := 0, out := [], spawned := [] }

/-- What a call leaves behind: the new state, the boolean written through
`resp` and the returned `error` (`none` is `nil`). -/
structure Reply where
  state : State
  resp : Bool
  err : Option String
  deriving DecidableEq, Repr

/-- A computation that either completes with a value or ends in a run-time
panic with the given message. -/
inductive Outcome (α : Type) where
  | ok (a : α)
  | panic (msg : String)
  deriving DecidableEq, Repr

/-- The line printed by `fmt.Println`. -/
def println (s : State) (line : String) : State :=
  { s with out := s.out ++ [line] }

/-- The builtin `make(chan bool, 1)`: a new open channel. -/
def makeChan (s : State) : State × Option Nat :=
  ({ s with chans := s.chans ++ [false] }, some s.chans.length)

/-- The builtin `close(c)`; it panics on a nil or closed channel. -/
def closeChan (s : State) (c : Option Nat) : Outcome State :=
  match c with
  | none => .panic "close of nil channel"
  | some id =>
    match s.chans[id]? with
    | some false => .ok { s with chans := s.chans.set id true }
    | some true => .panic "close of closed channel"
    | none => .panic "close of unallocated channel"

/-- A channel is open: allocated and not closed. -/
def isOpen (s : State) (c : Option Nat) : Bool :=
  match c with
  | none => false
  | some id => s.chans[id]? == some false

/-- The method `(*TaskUnit).Add` (server.go, lines 41-57). -/
def Add (s : State) (args : String) : Reply :=
  -- fmt.Println("[RPC] ADD TASK " + args)
  let s := println s ("[RPC] ADD TASK " ++ args)
  -- t.TaskName = args
  let s := { s with t := { s.t with TaskName := args } }
  -- t.TaskDoneChan = make(chan bool, 1)
  let (s, c) := makeChan s
  let s := { s with t := { s.t with TaskDoneChan := c } }
  -- queue = append(queue, *t), between Lock and Unlock
  let s := { s with queue := s.queue ++ [s.t] }
  -- wg.Add(1)
  let s := { s with wg := s.wg + 1 }
  -- go execute(*t)
  let s := { s with spawned := s.spawned ++ [s.t] }
  -- *resp = true; return nil
  { state := s, resp := true, err := none }

/-- The `for` loop of `Delete` (server.go, lines 64-74), from index `i` on.
The first argument counts the iterations that are left, `len(queue) - i`: the
body changes `queue` only on the iteration that breaks.  The result is the
state and the local `found`. -/
def Delete.loop (args : String) : Nat → Nat → State → Outcome (State × Bool)
  | 0, _, s => .ok (s, false)
  | k + 1, i, s =>
    match s.queue[i]? with
    -- i < len(queue) fails
    | none => .ok (s, false)
    | some e =>
      -- fmt.Println(queue[i].TaskName)
      let s := println s e.TaskName
      if e.TaskName = args then
        -- close(queue[i].TaskDoneChan)
        match closeChan s e.TaskDoneChan with
        | .panic msg => .panic msg
        | .ok s =>
          -- queue = append(queue[:i], queue[i+1:]...), between Lock and Unlock;
          -- found = true; break
          .ok ({ s with queue := s.queue.take i ++ s.queue.drop (i + 1) }, true)
      else
        -- i++
        Delete.loop args k (i + 1) s

/-- The body of `Delete` up to the end of the loop: the state and `found`. -/
def Delete.scan (s : State) (args : String) : Outcome (State × Bool) :=
  let s := println s ("[RPC] DEL TASK " ++ args)
  Delete.loop args s.queue.length 0 s

/-- The method `(*TaskUnit).Delete` (server.go, lines 60-82). -/
def Delete (s : State) (args : String) : Outcome Reply :=
  match Delete.scan s args with
  | .panic msg => .panic msg
  | .ok (s, found) =>
    let s := if found then s else println s ("[RPC] NOT FOUND TASK " ++ args)
    .ok { state := s, resp := true, err := none }

/-- One outcome of the `select` in `execute`: the ticker delivered the time
`c` (given by its printed form), or the receive on `TaskDoneChan` went
through. -/
inductive Select where
  | tick (c : String)
  | done
  deriving DecidableEq, Repr

/-- Where `execute` stands after the outcomes it was given. -/
inductive Exec where
  | waiting (s : State)
  | returned (s : State) (tickerStopped : Bool)
  | panicked (msg : String)
  deriving DecidableEq, Repr

/-- The method `wg.Done()`. -/
def wgDone (s : State) : Outcome State :=
  match s.wg with
  | 0 => .panic "sync: negative WaitGroup counter"
  | n + 1 => .ok { s with wg := n }

/-- The line printed by `execute` for the tick at time `c`. -/
def tickLine (t : TaskUnit) (c : String) : String :=
  "Task " ++ t.TaskName ++ " Tick at" ++ " " ++ c

/-- The runner `execute` (server.go, lines 25-38), driven by the outcomes of
its `select`. -/
def execute (t : TaskUnit) : List Select → State → Exec
  | [], s => .waiting s
  | .tick c :: rest, s => execute t rest (println s (tickLine t c))
  | .done :: _, s =>
    let s := println s ("Task " ++ t.TaskName ++ " Done")
    match wgDone s with
    | .panic msg => .panicked msg
    | .ok s => .returned s true

/-- A remote call. -/
inductive Call where
  | add (args : String)
  | delete (args : String)
  deriving DecidableEq, Repr

/-- One call served to completion. -/
def serve (s : State) : Call → Outcome Reply
  | .add args => .ok (Add s args)
  | .delete args => Delete s args

/-- A sequence of calls served one after the other. -/
def run : State → List Call → Outcome State
  | s, [] => .ok s
  | s, c :: cs =>
    match serve s c with
    | .panic msg => .panic msg
    | .ok r => run r.state cs

/-- The local `found` at the end of the loop of `Delete`. -/
def Delete.found (s : State) (args : String) : Bool :=
  match Delete.scan s args with
  | .ok (_, found) => found
  | .panic _ => false

/-- The number of entries of the slice named `X`. -/
def named (X : String) (q : List TaskUnit) : Nat :=
  q.countP (fun e => decide (e.TaskName = X))

/-- The number of calls `Add(X)` in a sequence of calls. -/
def adds (X : String) (cs : List Call) : Nat :=
  cs.countP (fun c => decide (c = .add X))

/-- The number of calls `Delete(X)` in a sequence of calls served from `s` on
that found a matching entry when they ran. -/
def matchedDeletes (X : String) : State → List Call → Nat
  | _, [] => 0
  | s, c :: cs =>
    (if c = .delete X ∧ Delete.found s X = true then 1 else 0) +
      match serve s c with
      | .panic _ => 0
      | .ok r => matchedDeletes X r.state cs

/-- The invariant of the registry: every handle in `queue` has an open
channel, and no two handles share a channel. -/
def WellFormed (s : State) : Prop :=
  (∀ e ∈ s.queue, isOpen s e.TaskDoneChan = true) ∧
    (s.queue.map (fun e => e.TaskDoneChan)).Nodup

/-! ## Interleaving semantics

Calls arrive on their own goroutines (`go jsonrpc.ServeConn(conn)` in `main`),
all on the one receiver registered in `main`.  A thread serves one call; its
program counter is the line of `server.go` it executes next, and one step
executes that statement atomically. -/

/-- The statements of `Add` (lines 42-56) and of `Delete` (lines 61-81); the
`for` clause of line 64 has its three parts. -/
inductive Pc where
  | l42 | l44 | l45 | l47 | l48 | l49 | l52 | l53 | l55 | l56
  | l61 | l63 | l64init | l64cond | l64post | l65 | l66 | l67 | l68 | l69 | l70
  | l71 | l72 | l76 | l77 | l80 | l81
  | returned
  deriving DecidableEq, Repr

/-- A goroutine serving one call: the argument `args`, the program counter
and the locals `i`, `found` and `*resp`. -/
structure Thread where
  args : String
  pc : Pc
  i : Nat
  found : Bool
  resp : Bool
  deriving DecidableEq, Repr

/-- A goroutine about to serve `Add(args)`. -/
def Thread.add (args : String) : Thread :=
  { args := args, pc := .l42, i := 0, found := false, resp := false }

/-- A goroutine about to serve `Delete(args)`. -/
def Thread.delete (args : String) : Thread :=
  { args := args, pc := .l61, i := 0, found := false, resp := false }

/-- The process: the shared state, the mutex `queueLock` and the goroutines
serving calls. -/
structure Conf where
  s : State
  locked : Bool
  threads : List Thread
  deriving DecidableEq, Repr

/-- The result of one step of a goroutine. -/
inductive Step where
  | next (s : State) (locked : Bool) (th : Thread)
  | blocked
  | panic (msg : String)
  deriving DecidableEq, Repr

/-- One statement of the goroutine `th`. -/
def step (s : State) (locked : Bool) (th : Thread) : Step :=
  match th.pc with
  | .l42 => .next (println s ("[RPC] ADD TASK " ++ th.args)) locked { th with pc := .l44 }
  | .l44 => .next { s with t := { s.t with TaskName := th.args } } locked { th with pc := .l45 }
  | .l45 =>
    let (s, c) := makeChan s
    .next { s with t := { s.t with TaskDoneChan := c } } locked { th with pc := .l47 }
  | .l47 => if locked then .blocked else .next s true { th with pc := .l48 }
  | .l48 => .next { s with queue := s.queue ++ [s.t] } locked { th with pc := .l49 }
  | .l49 =>
    if locked then .next s false { th with pc := .l52 }
    else .panic "sync: unlock of unlocked mutex"
  | .l52 => .next { s with wg := s.wg + 1 } locked { th with pc := .l53 }
  | .l53 => .next { s with spawned := s.spawned ++ [s.t] } locked { th with pc := .l55 }
  | .l55 => .next s locked { th with resp := true, pc := .l56 }
  | .l56 => .next s locked { th with pc := .returned }
  | .l61 => .next (println s ("[RPC] DEL TASK " ++ th.args)) locked { th with pc := .l63 }
  | .l63 => .next s locked { th with found := false, pc := .l64init }
  | .l64init => .next s locked { th with i := 0, pc := .l64cond }
  | .l64cond =>
    if th.i < s.queue.length then .next s locked { th with pc := .l65 }
    else .next s locked { th with pc := .l76 }
  | .l64post => .next s locked { th with i := th.i + 1, pc := .l64cond }
  | .l65 =>
    match s.queue[th.i]? with
    | none => .panic "index out of range"
    | some e => .next (println s e.TaskName) locked { th with pc := .l66 }
  | .l66 =>
    match s.queue[th.i]? with
    | none => .panic "index out of range"
    | some e =>
      if e.TaskName = th.args then .next s locked { th with pc := .l67 }
      else .next s locked { th with pc := .l64post }
  | .l67 =>
    match s.queue[th.i]? with
    | none => .panic "index out of range"
    | some e =>
      match closeChan s e.TaskDoneChan with
      | .panic msg => .panic msg
      | .ok s => .next s locked { th with pc := .l68 }
  | .l68 => if locked then .blocked else .next s true { th with pc := .l69 }
  | .l69 =>
    if th.i + 1 ≤ s.queue.length then
      .next { s with queue := s.queue.take th.i ++ s.queue.drop (th.i + 1) } locked
        { th with pc := .l70 }
    else .panic "slice bounds out of range"
  | .l70 =>
    if locked then .next s false { th with pc := .l71 }
    else .panic "sync: unlock of unlocked mutex"
  | .l71 => .next s locked { th with found := true, pc := .l72 }
  | .l72 => .next s locked { th with pc := .l76 }
  | .l76 =>
    if th.found then .next s locked { th with pc := .l80 }
    else .next s locked { th with pc := .l77 }
  | .l77 =>
    .next (println s ("[RPC] NOT FOUND TASK " ++ th.args)) locked { th with pc := .l80 }
  | .l80 => .next s locked { th with resp := true, pc := .l81 }
  | .l81 => .next s locked { th with pc := .returned }
  | .returned => .blocked

/-- The scheduler runs goroutine number `tid` for one statement.  A goroutine
that waits for the mutex, or has returned, makes no progress. -/
def sched (c : Conf) (tid : Nat) : Outcome Conf :=
  match c.threads[tid]? with
  | none => .ok c
  | some th =>
    match step c.s c.locked th with
    | .next s locked th1 => .ok { s := s, locked := locked, threads := c.threads.set tid th1 }
    | .blocked => .ok c
    | .panic msg => .panic msg

/-- The process under a schedule, the list of the goroutines picked. -/
def runSched : Conf → List Nat → Outcome Conf
  | c, [] => .ok c
  | c, tid :: rest =>
    match sched c tid with
    | .panic msg => .panic msg
    | .ok c1 => runSched c1 rest

/-- A process with the single goroutine `th` and the mutex free. -/
def solo (s : State) (th : Thread) : Conf :=
  { s := s, locked := false, threads := [th] }

/-- Two calls `Add("A")` and `Add("B")` in flight on the receiver, in the
initial state. -/
def twoAdds : Conf :=
  { s := init, locked := false, threads := [Thread.add "A", Thread.add "B"] }

/-- Two calls `Delete("x")` in flight after a call `Add("x")` has returned. -/
def twoDeletes : Conf :=
  { s := (Add init "x").state, locked := false,
    threads := [Thread.delete "x", Thread.delete "x"] }

/-- The registry after the calls `Add("x")`, `Add("y")`, `Add("x")`. -/
def sample : State :=
  (Add (Add (Add init "x").state "y").state "x").state

/-- The handle created by `Add("backup")` in the initial state. -/
def backup : TaskUnit :=
  { TaskName := "backup", TaskDoneChan := some 0 }

/-- Two ticks, the stop signal, and a tick that comes too late. -/
def sampleEvents : List Select :=
  [.tick "1s", .tick "2s", .done, .tick "3s"]

/-- The names printed by the scan over the entries `l`. -/
def scanned (l : List TaskUnit) : List String :=
  l.map (fun e => e.TaskName)

/-! ## The loop of `Delete` -/

theorem println_queue (s : State) (line : String) : (println s line).queue = s.queue := rfl

theorem getElem?_front (front l : List TaskUnit) (x : TaskUnit) :
    (front ++ x :: l)[front.length]? = some x := by
  rw [List.getElem?_append_right (Nat.le_refl _)]
  simp

/-- A scan over entries none of which is named `args` runs to the end of the
slice, prints every name and leaves `found` false. -/
theorem loop_no_match (args : String) :
    ∀ (l front : List TaskUnit) (s : State) (k : Nat), s.queue = front ++ l →
      k = l.length → (∀ x ∈ l, x.TaskName ≠ args) →
      Delete.loop args k front.length s
        = .ok ({ s with out := s.out ++ scanned l }, false) := by
  intro l
  induction l with
  | nil => intro front s k _ hk _; subst hk; simp [Delete.loop, scanned]
  | cons x l ih =>
    intro front s k hq hk hne
    subst hk
    have hx : x.TaskName ≠ args := hne x (List.mem_cons_self _ _)
    have hget : s.queue[front.length]? = some x := by rw [hq]; exact getElem?_front front l x
    have hq2 : (println s x.TaskName).queue = (front ++ [x]) ++ l := by
      rw [println_queue, hq]; simp
    have := ih (front ++ [x]) (println s x.TaskName) l.length hq2 rfl
      (fun y hy => hne y (List.mem_cons_of_mem _ hy))
    simp only [List.length_append, List.length_singleton] at this
    simp only [List.length_cons, Delete.loop, hget, hx, if_false, this]
    simp [println, scanned]

/-- A scan that meets a first entry `e` named `args` closes the channel of `e`
and splices `e` out of the slice. -/
theorem loop_match (args : String) (e : TaskUnit) (post : List TaskUnit)
    (he : e.TaskName = args) :
    ∀ (pre front : List TaskUnit) (s : State) (k : Nat),
      s.queue = front ++ (pre ++ e :: post) → k = (pre ++ e :: post).length →
      (∀ x ∈ pre, x.TaskName ≠ args) →
      Delete.loop args k front.length s
        = match closeChan { s with out := s.out ++ scanned pre ++ [e.TaskName] }
            e.TaskDoneChan with
          | .panic msg => .panic msg
          | .ok s1 =>
            .ok ({ s1 with queue := s1.queue.take (front ++ pre).length
                    ++ s1.queue.drop ((front ++ pre).length + 1) }, true) := by
  intro pre
  induction pre with
  | nil =>
    intro front s k hq hk _
    subst hk
    have hget : s.queue[front.length]? = some e := by rw [hq]; exact getElem?_front front post e
    simp only [List.nil_append, List.length_cons, Delete.loop, hget, he, if_true, scanned,
      List.map_nil, List.append_nil]
    rfl
  | cons x pre ih =>
    intro front s k hq hk hne
    have hk1 : k = (pre ++ e :: post).length + 1 := by simpa using hk
    subst hk1
    have hx : x.TaskName ≠ args := hne x (List.mem_cons_self _ _)
    have hget : s.queue[front.length]? = some x := by
      rw [hq]; exact getElem?_front front (pre ++ e :: post) x
    have hq2 : (println s x.TaskName).queue = (front ++ [x]) ++ (pre ++ e :: post) := by
      rw [println_queue, hq]; simp
    have := ih (front ++ [x]) (println s x.TaskName) _ hq2 rfl
      (fun y hy => hne y (List.mem_cons_of_mem _ hy))
    rw [show (front ++ [x]).length = front.length + 1 by simp] at this
    simp only [Delete.loop, hget, hx, if_false]
    rw [this]
    simp [println, scanned, Nat.add_assoc, Nat.add_comm 1]

/-! ## `Delete` in closed form -/

theorem isOpen_some (s : State) (id : Nat) :
    isOpen s (some id) = true ↔ s.chans[id]? = some false := by
  simp [isOpen]

theorem isOpen_cases (s : State) (c : Option Nat) (h : isOpen s c = true) :
    ∃ id, c = some id ∧ s.chans[id]? = some false := by
  cases c with
  | none => simp [isOpen] at h
  | some id => exact ⟨id, rfl, (isOpen_some s id).1 h⟩

theorem closeChan_not_open (s : State) (c : Option Nat) (h : isOpen s c = false) :
    ∃ msg, closeChan s c = .panic msg := by
  cases c with
  | none => exact ⟨_, rfl⟩
  | some id =>
    simp only [isOpen, beq_eq_false_iff_ne, ne_eq] at h
    simp only [closeChan]
    split
    · next h2 => exact absurd h2 h
    · exact ⟨_, rfl⟩
    · exact ⟨_, rfl⟩

/-- Every slice with an entry named `n` splits at its first such entry. -/
theorem first_match (n : String) :
    ∀ q : List TaskUnit, (∃ e ∈ q, e.TaskName = n) →
      ∃ pre e post, q = pre ++ e :: post ∧ (∀ x ∈ pre, x.TaskName ≠ n) ∧ e.TaskName = n := by
  intro q
  induction q with
  | nil => rintro ⟨e, he, _⟩; cases he
  | cons x q ih =>
    rintro ⟨e, he, hn⟩
    by_cases hx : x.TaskName = n
    · exact ⟨[], x, q, rfl, by simp, hx⟩
    · have hq : ∃ e ∈ q, e.TaskName = n := by
        rcases List.mem_cons.1 he with h | h
        · exact absurd (h ▸ hn) hx
        · exact ⟨e, h, hn⟩
      obtain ⟨pre, e1, post, h1, h2, h3⟩ := ih hq
      refine ⟨x :: pre, e1, post, by simp [h1], ?_, h3⟩
      intro y hy
      rcases List.mem_cons.1 hy with h | h
      · exact h ▸ hx
      · exact h2 y h

/-- With no entry named `n`, `Delete` prints the names it scans and the
not-found line, and changes nothing else. -/
theorem Delete_no_match (s : State) (n : String) (hno : ∀ e ∈ s.queue, e.TaskName ≠ n) :
    Delete s n = .ok
      { state := { s with out := s.out ++ ["[RPC] DEL TASK " ++ n] ++ scanned s.queue
                                ++ ["[RPC] NOT FOUND TASK " ++ n] },
        resp := true, err := none } := by
  have h := loop_no_match n s.queue [] (println s ("[RPC] DEL TASK " ++ n)) s.queue.length
    (by simp [println]) rfl hno
  simp only [List.length_nil] at h
  simp only [Delete, Delete.scan, println_queue, h]
  simp [println]

/-- With a first entry `e` named `n` whose channel `id` is open, `Delete`
closes `id` and removes `e`. -/
theorem Delete_match (s : State) (n : String) (pre post : List TaskUnit) (e : TaskUnit)
    (id : Nat) (hq : s.queue = pre ++ e :: post) (hpre : ∀ x ∈ pre, x.TaskName ≠ n)
    (he : e.TaskName = n) (hc : e.TaskDoneChan = some id) (hopen : s.chans[id]? = some false) :
    Delete s n = .ok
      { state := { s with queue := pre ++ post, chans := s.chans.set id true,
                          out := s.out ++ ["[RPC] DEL TASK " ++ n] ++ scanned pre ++ [n] },
        resp := true, err := none } := by
  have h := loop_match n e post he pre [] (println s ("[RPC] DEL TASK " ++ n)) s.queue.length
    (by simp [println, hq]) (by simp [hq]) hpre
  simp only [List.length_nil] at h
  unfold Delete Delete.scan
  simp only [println_queue]
  rw [h]
  simp [closeChan, println, hc, hopen, hq, he]

/-- When the first entry named `n` has a channel that is not open, the
`close` in `Delete` panics. -/
theorem Delete_match_panic (s : State) (n : String) (pre post : List TaskUnit) (e : TaskUnit)
    (hq : s.queue = pre ++ e :: post) (hpre : ∀ x ∈ pre, x.TaskName ≠ n)
    (he : e.TaskName = n) (hclosed : isOpen s e.TaskDoneChan = false) :
    ∃ msg, Delete s n = .panic msg := by
  have h := loop_match n e post he pre [] (println s ("[RPC] DEL TASK " ++ n))
    (println s ("[RPC] DEL TASK " ++ n)).queue.length
    (by simp [println, hq]) (by simp [println, hq]) hpre
  simp only [List.length_nil] at h
  obtain ⟨msg, hm⟩ := closeChan_not_open
    { println s ("[RPC] DEL TASK " ++ n) with
      out := (println s ("[RPC] DEL TASK " ++ n)).out ++ scanned pre ++ [e.TaskName] }
    e.TaskDoneChan (by simpa [isOpen, println] using hclosed)
  refine ⟨msg, ?_⟩
  unfold Delete Delete.scan
  simp only [] at hm ⊢
  rw [h, hm]

/-- The flag `found` is false when no entry is named `n`. -/
theorem found_no_match (s : State) (n : String) (hno : ∀ e ∈ s.queue, e.TaskName ≠ n) :
    Delete.found s n = false := by
  have h := loop_no_match n s.queue [] (println s ("[RPC] DEL TASK " ++ n))
    (println s ("[RPC] DEL TASK " ++ n)).queue.length (by simp [println]) (by simp [println]) hno
  simp only [List.length_nil] at h
  unfold Delete.found Delete.scan
  simp only []
  rw [h]

/-- The flag `found` is true when the first entry named `n` has an open
channel. -/
theorem found_match (s : State) (n : String) (pre post : List TaskUnit) (e : TaskUnit)
    (hq : s.queue = pre ++ e :: post) (hpre : ∀ x ∈ pre, x.TaskName ≠ n)
    (he : e.TaskName = n) (hopen : isOpen s e.TaskDoneChan = true) :
    Delete.found s n = true := by
  have h := loop_match n e post he pre [] (println s ("[RPC] DEL TASK " ++ n))
    (println s ("[RPC] DEL TASK " ++ n)).queue.length
    (by simp [println, hq]) (by simp [println, hq]) hpre
  simp only [List.length_nil] at h
  obtain ⟨id, hc, hid⟩ := isOpen_cases s _ hopen
  unfold Delete.found Delete.scan
  simp only []
  rw [h]
  simp [closeChan, println, hc, hid]

/-! ## The invariant -/

theorem Add_state (s : State) (n : String) :
    Add s n =
      { state := { queue := s.queue ++ [⟨n, some s.chans.length⟩],
                   t := ⟨n, some s.chans.length⟩,
                   chans := s.chans ++ [false],
                   wg := s.wg + 1,
                   out := s.out ++ ["[RPC] ADD TASK " ++ n],
                   spawned := s.spawned ++ [⟨n, some s.chans.length⟩] },
        resp := true, err := none } := rfl

theorem init_wellFormed : WellFormed init := by
  constructor
  · intro e he; cases he
  · simp [init]

theorem Add_wellFormed (s : State) (n : String) (h : WellFormed s) :
    WellFormed (Add s n).state := by
  obtain ⟨hopen, hnd⟩ := h
  rw [Add_state]
  constructor
  · intro e he
    simp only [List.mem_append, List.mem_singleton] at he
    rcases he with he | he
    · obtain ⟨id, hc, hid⟩ := isOpen_cases s _ (hopen e he)
      have hlt : id < s.chans.length := by
        by_contra hge
        rw [List.getElem?_eq_none (Nat.le_of_not_lt hge)] at hid
        cases hid
      simp [isOpen, hc, List.getElem?_append_left hlt, hid]
    · subst he
      simp [isOpen]
  · simp only [List.map_append, List.map_cons, List.map_nil]
    refine List.Nodup.append hnd (List.nodup_singleton _) ?_
    simp only [List.disjoint_singleton]
    intro hmem
    obtain ⟨e, he, hce⟩ := List.mem_map.1 hmem
    obtain ⟨id, hc, hid⟩ := isOpen_cases s _ (hopen e he)
    simp only [hc, Option.some.injEq] at hce
    subst hce
    simp at hid

theorem Delete_wellFormed (s : State) (n : String) (h : WellFormed s) :
    ∃ r, Delete s n = .ok r ∧ WellFormed r.state ∧ r.resp = true ∧ r.err = none := by
  obtain ⟨hopen, hnd⟩ := h
  by_cases hex : ∃ e ∈ s.queue, e.TaskName = n
  · obtain ⟨pre, e, post, hq, hpre, he⟩ := first_match n s.queue hex
    have hmem : e ∈ s.queue := by rw [hq]; simp
    obtain ⟨id, hc, hid⟩ := isOpen_cases s _ (hopen e hmem)
    refine ⟨_, Delete_match s n pre post e id hq hpre he hc hid, ?_, rfl, rfl⟩
    rw [hq, List.map_append, List.map_cons, hc] at hnd
    have hnotin : some id ∉ (pre ++ post).map (fun e => e.TaskDoneChan) := by
      have h1 := List.nodup_middle.1 hnd
      rw [List.map_append]
      exact (List.nodup_cons.1 h1).1
    constructor
    · intro x hx
      simp only at hx
      have hxq : x ∈ s.queue := by
        rw [hq]
        rcases List.mem_append.1 hx with h1 | h1
        · exact List.mem_append_left _ h1
        · exact List.mem_append_right _ (List.mem_cons_of_mem _ h1)
      obtain ⟨j, hj, hjo⟩ := isOpen_cases s _ (hopen x hxq)
      have hne : id ≠ j := by
        intro hij
        apply hnotin
        exact List.mem_map.2 ⟨x, hx, by rw [hj, hij]⟩
      simp [isOpen, hj, List.getElem?_set_ne hne, hjo]
    · simp only [List.map_append]
      have h1 := List.nodup_middle.1 hnd
      exact (List.nodup_cons.1 h1).2
  · have hno : ∀ e ∈ s.queue, e.TaskName ≠ n := fun e he hn => hex ⟨e, he, hn⟩
    exact ⟨_, Delete_no_match s n hno, ⟨hopen, hnd⟩, rfl, rfl⟩

theorem serve_wellFormed (s : State) (c : Call) (h : WellFormed s) :
    ∃ r, serve s c = .ok r ∧ WellFormed r.state ∧ r.resp = true ∧ r.err = none := by
  cases c with
  | add n => exact ⟨_, rfl, Add_wellFormed s n h, rfl, rfl⟩
  | delete n => exact Delete_wellFormed s n h

theorem run_wellFormed (cs : List Call) :
    ∀ s, WellFormed s → ∃ s1, run s cs = .ok s1 ∧ WellFormed s1 := by
  induction cs with
  | nil => intro s h; exact ⟨s, rfl, h⟩
  | cons c cs ih =>
    intro s h
    obtain ⟨r, hr, hwf, _, _⟩ := serve_wellFormed s c h
    obtain ⟨s1, h1, h2⟩ := ih r.state hwf
    exact ⟨s1, by simp only [run, hr, h1], h2⟩

/-! ## Counting entries by name -/

theorem named_append (X : String) (q1 q2 : List TaskUnit) :
    named X (q1 ++ q2) = named X q1 + named X q2 := by
  simp [named]

theorem named_cons (X : String) (e : TaskUnit) (q : List TaskUnit) :
    named X (e :: q) = named X q + if e.TaskName = X then 1 else 0 := by
  simp [named, List.countP_cons]

theorem serve_count (s : State) (c : Call) (X : String) (h : WellFormed s) :
    ∃ r, serve s c = .ok r ∧ WellFormed r.state ∧
      named X r.state.queue + (if c = .delete X ∧ Delete.found s X = true then 1 else 0)
        = named X s.queue + (if c = .add X then 1 else 0) := by
  cases c with
  | add n =>
    refine ⟨_, rfl, Add_wellFormed s n h, ?_⟩
    rw [Add_state]
    have h0 : named X [] = 0 := rfl
    simp only [named_append, named_cons, h0, reduceCtorEq, false_and, if_false, Call.add.injEq]
    omega
  | delete n =>
    obtain ⟨hopen, hnd⟩ := h
    by_cases hex : ∃ e ∈ s.queue, e.TaskName = n
    · obtain ⟨pre, e, post, hq, hpre, he⟩ := first_match n s.queue hex
      have hmem : e ∈ s.queue := by rw [hq]; simp
      obtain ⟨id, hc, hid⟩ := isOpen_cases s _ (hopen e hmem)
      obtain ⟨r, hr, hwf, _, _⟩ := Delete_wellFormed s n ⟨hopen, hnd⟩
      have hr2 := Delete_match s n pre post e id hq hpre he hc hid
      refine ⟨r, hr, hwf, ?_⟩
      clear hwf
      have hrq : r.state.queue = pre ++ post := by
        rw [hr2] at hr
        cases hr
        rfl
      rw [hrq, hq]
      simp only [named_append, named_cons, reduceCtorEq, if_false, Call.delete.injEq, he]
      by_cases hnX : n = X
      · subst hnX
        rw [found_match s n pre post e hq hpre he (hopen e hmem)]
        simp
        omega
      · simp [hnX]
    · have hno : ∀ e ∈ s.queue, e.TaskName ≠ n := fun e he hn => hex ⟨e, he, hn⟩
      refine ⟨_, Delete_no_match s n hno, ⟨hopen, hnd⟩, ?_⟩
      simp only [reduceCtorEq, if_false, Call.delete.injEq]
      by_cases hnX : n = X
      · subst hnX
        rw [found_no_match s n hno]
        simp
      · simp [hnX]

theorem run_count (X : String) (cs : List Call) :
    ∀ s, WellFormed s → ∃ s1, run s cs = .ok s1 ∧ WellFormed s1 ∧
      named X s1.queue + matchedDeletes X s cs = named X s.queue + adds X cs := by
  induction cs with
  | nil => intro s h; exact ⟨s, rfl, h, by simp [matchedDeletes, adds]⟩
  | cons c cs ih =>
    intro s h
    obtain ⟨r, hr, hwf, hcount⟩ := serve_count s c X h
    obtain ⟨s1, h1, h2, h3⟩ := ih r.state hwf
    refine ⟨s1, by simp only [run, hr, h1], h2, ?_⟩
    simp only [matchedDeletes, hr, adds, List.countP_cons, decide_eq_true_eq] at h3 ⊢
    omega

/-! ## A goroutine running alone takes the steps of the sequential call -/

theorem runSched_append (a b : List Nat) :
    ∀ c : Conf, runSched c (a ++ b) =
      match runSched c a with
      | .panic msg => .panic msg
      | .ok c1 => runSched c1 b := by
  induction a with
  | nil => intro c; rfl
  | cons x a ih =>
    intro c
    simp only [List.cons_append, runSched]
    cases sched c x with
    | panic msg => rfl
    | ok c1 => exact ih c1

theorem closeChan_queue (s s1 : State) (c : Option Nat) (h : closeChan s c = .ok s1) :
    s1.queue = s.queue := by
  cases c with
  | none => simp [closeChan] at h
  | some id =>
    simp only [closeChan] at h
    split at h <;> simp at h
    rw [← h]

theorem solo_Add (s : State) (args : String) :
    runSched (solo s (Thread.add args)) (List.replicate 10 0)
      = .ok (solo (Add s args).state ⟨args, .returned, 0, false, true⟩) := by
  rfl

theorem solo_loop (args : String) :
    ∀ (k i : Nat) (s : State), s.queue.length ≤ k + i →
      (∀ s1 f, Delete.loop args k i s = .ok (s1, f) →
        ∃ m j, runSched (solo s ⟨args, .l64cond, i, false, false⟩) (List.replicate m 0)
          = .ok (solo s1 ⟨args, .l76, j, f, false⟩)) ∧
      (∀ msg, Delete.loop args k i s = .panic msg →
        ∃ m, runSched (solo s ⟨args, .l64cond, i, false, false⟩) (List.replicate m 0)
          = .panic msg) := by
  intro k
  induction k with
  | zero =>
    intro i s hlen
    have hge : ¬ i < s.queue.length := by omega
    constructor
    · intro s1 f h
      simp only [Delete.loop, Outcome.ok.injEq, Prod.mk.injEq] at h
      obtain ⟨rfl, rfl⟩ := h
      refine ⟨1, i, ?_⟩
      simp [runSched, sched, step, solo, hge]
    · intro msg h
      simp [Delete.loop] at h
  | succ k ih =>
    intro i s hlen
    cases hget : s.queue[i]? with
    | none =>
      have hge : ¬ i < s.queue.length := by
        intro hlt
        rw [List.getElem?_eq_getElem hlt] at hget
        cases hget
      constructor
      · intro s1 f h
        simp only [Delete.loop, hget, Outcome.ok.injEq, Prod.mk.injEq] at h
        obtain ⟨rfl, rfl⟩ := h
        refine ⟨1, i, ?_⟩
        simp [runSched, sched, step, solo, hge]
      · intro msg h
        simp [Delete.loop, hget] at h
    | some e =>
      have hlt : i < s.queue.length := by
        by_contra hge
        rw [List.getElem?_eq_none (Nat.le_of_not_lt hge)] at hget
        cases hget
      by_cases hname : e.TaskName = args
      · cases hc : closeChan (println s e.TaskName) e.TaskDoneChan with
        | panic msg0 =>
          constructor
          · intro s1 f h
            simp only [Delete.loop, hget, hname, if_true] at h
            rw [← hname, hc] at h
            cases h
          · intro msg h
            simp only [Delete.loop, hget, hname, if_true] at h
            rw [← hname, hc] at h
            cases h
            refine ⟨4, ?_⟩
            have hc1 := hc
            rw [hname] at hc1
            simp [runSched, sched, step, solo, List.replicate, hlt, hget, hname, println_queue,
              hc1]
        | ok s2 =>
          have hq2 : s2.queue = s.queue := (closeChan_queue _ _ _ hc).trans (println_queue _ _)
          have hc1 := hc
          rw [hname] at hc1
          constructor
          · intro s1 f h
            simp only [Delete.loop, hget, hname, if_true] at h
            rw [← hname, hc] at h
            simp only [Outcome.ok.injEq, Prod.mk.injEq] at h
            obtain ⟨rfl, rfl⟩ := h
            refine ⟨9, i, ?_⟩
            have hle : i + 1 ≤ s.queue.length := hlt
            simp [runSched, sched, step, solo, List.replicate, hlt, hget, hname, println_queue,
              hc1, hq2, hle]
          · intro msg h
            simp only [Delete.loop, hget, hname, if_true] at h
            rw [← hname, hc] at h
            cases h
      · have hrun : runSched (solo s ⟨args, .l64cond, i, false, false⟩) (List.replicate 4 0)
            = .ok (solo (println s e.TaskName) ⟨args, .l64cond, i + 1, false, false⟩) := by
          simp [runSched, sched, step, solo, List.replicate, hlt, hget, hname, println_queue]
        obtain ⟨ih1, ih2⟩ := ih (i + 1) (println s e.TaskName)
          (by rw [println_queue]; omega)
        constructor
        · intro s1 f h
          simp only [Delete.loop, hget, hname, if_false] at h
          obtain ⟨m, j, hm⟩ := ih1 s1 f h
          refine ⟨4 + m, j, ?_⟩
          rw [List.replicate_add, runSched_append, hrun]
          exact hm
        · intro msg h
          simp only [Delete.loop, hget, hname, if_false] at h
          obtain ⟨m, hm⟩ := ih2 msg h
          refine ⟨4 + m, ?_⟩
          rw [List.replicate_add, runSched_append, hrun]
          exact hm

theorem solo_Delete (s : State) (args : String) :
    (∀ r, Delete s args = .ok r →
      ∃ m j f, runSched (solo s (Thread.delete args)) (List.replicate m 0)
        = .ok (solo r.state ⟨args, .returned, j, f, true⟩)) ∧
    (∀ msg, Delete s args = .panic msg →
      ∃ m, runSched (solo s (Thread.delete args)) (List.replicate m 0) = .panic msg) := by
  have hrun : runSched (solo s (Thread.delete args)) (List.replicate 3 0)
      = .ok (solo (println s ("[RPC] DEL TASK " ++ args)) ⟨args, .l64cond, 0, false, false⟩) := by
    rfl
  obtain ⟨h1, h2⟩ := solo_loop args (println s ("[RPC] DEL TASK " ++ args)).queue.length 0
    (println s ("[RPC] DEL TASK " ++ args)) (Nat.le_refl _)
  constructor
  · intro r hr
    unfold Delete Delete.scan at hr
    simp only [] at hr
    cases hl : Delete.loop args (println s ("[RPC] DEL TASK " ++ args)).queue.length 0
        (println s ("[RPC] DEL TASK " ++ args)) with
    | panic msg => rw [hl] at hr; cases hr
    | ok p =>
      obtain ⟨s1, f⟩ := p
      rw [hl] at hr
      simp only [Outcome.ok.injEq] at hr
      subst hr
      obtain ⟨m, j, hm⟩ := h1 s1 f hl
      cases f with
      | true =>
        refine ⟨3 + (m + 3), j, true, ?_⟩
        rw [List.replicate_add, runSched_append, hrun]
        simp only []
        rw [List.replicate_add, runSched_append, hm]
        rfl
      | false =>
        refine ⟨3 + (m + 4), j, false, ?_⟩
        rw [List.replicate_add, runSched_append, hrun]
        simp only []
        rw [List.replicate_add, runSched_append, hm]
        rfl
  · intro msg hr
    unfold Delete Delete.scan at hr
    simp only [] at hr
    cases hl : Delete.loop args (println s ("[RPC] DEL TASK " ++ args)).queue.length 0
        (println s ("[RPC] DEL TASK " ++ args)) with
    | ok p => rw [hl] at hr; cases hr
    | panic msg1 =>
      rw [hl] at hr
      simp only [Outcome.panic.injEq] at hr
      subst hr
      obtain ⟨m, hm⟩ := h2 msg1 hl
      refine ⟨3 + m, ?_⟩
      rw [List.replicate_add, runSched_append, hrun]
      exact hm

/-! ## The runner -/

theorem execute_ticks (t : TaskUnit) (rest : List Select) :
    ∀ (cs : List String) (s : State),
      execute t (cs.map Select.tick ++ rest) s
        = execute t rest { s with out := s.out ++ cs.map (tickLine t) } := by
  intro cs
  induction cs with
  | nil => intro s; simp
  | cons c cs ih =>
    intro s
    have hstep : execute t (Select.tick c :: (cs.map Select.tick ++ rest)) s
        = execute t (cs.map Select.tick ++ rest) (println s (tickLine t c)) := rfl
    rw [List.map_cons, List.cons_append, hstep, ih]
    simp [println]

/-- Every sequence of outcomes is a run of ticks, followed by nothing or by a
first `done` and a remainder. -/
theorem select_split :
    ∀ events : List Select,
      (∃ (cs : List String) (post : List Select),
          events = cs.map Select.tick ++ Select.done :: post) ∨
        (∃ cs : List String, events = cs.map Select.tick) := by
  intro events
  induction events with
  | nil => exact Or.inr ⟨[], rfl⟩
  | cons ev events ih =>
    cases ev with
    | done => exact Or.inl ⟨[], events, rfl⟩
    | tick c =>
      rcases ih with ⟨cs, post, h⟩ | ⟨cs, h⟩
      · exact Or.inl ⟨c :: cs, post, by simp [h]⟩
      · exact Or.inr ⟨c :: cs, by simp [h]⟩

/-! ## The claims -/

/-- C1: when some entry is named `n` and the entries named `n` have open stop
signals, `Delete(n)` returns and leaves the registry with exactly its first
entry named `n` removed: the entries before it (none named `n`) and all the
entries after it (also those named `n`) are kept in order, and the length
drops by one. -/
theorem C1_delete_removes_first_match (s : State) (n : String)
    (hex : ∃ e ∈ s.queue, e.TaskName = n)
    (hopen : ∀ e ∈ s.queue, e.TaskName = n → isOpen s e.TaskDoneChan = true) :
    ∃ pre e post r, s.queue = pre ++ e :: post ∧ (∀ x ∈ pre, x.TaskName ≠ n) ∧
      e.TaskName = n ∧ Delete s n = .ok r ∧ r.state.queue = pre ++ post ∧
      r.state.queue.length + 1 = s.queue.length := by
  obtain ⟨pre, e, post, hq, hpre, he⟩ := first_match n s.queue hex
  have hmem : e ∈ s.queue := by rw [hq]; simp
  obtain ⟨id, hc, hid⟩ := isOpen_cases s _ (hopen e hmem he)
  refine ⟨pre, e, post, _, hq, hpre, he, Delete_match s n pre post e id hq hpre he hc hid, rfl, ?_⟩
  simp [hq]
  omega

theorem C1_delete_removes_first_match_witness :
    ∃ pre e post r, sample.queue = pre ++ e :: post ∧ (∀ x ∈ pre, x.TaskName ≠ "x") ∧
      e.TaskName = "x" ∧ Delete sample "x" = .ok r ∧ r.state.queue = pre ++ post ∧
      r.state.queue.length + 1 = sample.queue.length :=
  C1_delete_removes_first_match sample "x" (by decide) (by decide)

/-- C2: when no entry is named `n`, `Delete(n)` sets the result to true,
returns no error, leaves the registry unchanged and closes no channel; it only
prints. -/
theorem C2_delete_absent_is_noop (s : State) (n : String)
    (hno : ∀ e ∈ s.queue, e.TaskName ≠ n) :
    ∃ r, Delete s n = .ok r ∧ r.resp = true ∧ r.err = none ∧ r.state.queue = s.queue ∧
      r.state.chans = s.chans ∧ r.state.t = s.t ∧ r.state.wg = s.wg ∧
      r.state.spawned = s.spawned :=
  ⟨_, Delete_no_match s n hno, rfl, rfl, rfl, rfl, rfl, rfl, rfl⟩

theorem C2_delete_absent_is_noop_witness :
    (∀ e ∈ sample.queue, e.TaskName ≠ "ghost") ∧
      ∃ r, Delete sample "ghost" = .ok r ∧ r.resp = true ∧ r.err = none ∧
        r.state.queue = sample.queue ∧ r.state.chans = sample.chans ∧ r.state.t = sample.t ∧
        r.state.wg = sample.wg ∧ r.state.spawned = sample.spawned :=
  ⟨by decide, C2_delete_absent_is_noop sample "ghost" (by decide)⟩

/-- C3: for every state and every name `n`, also one already in the registry,
`Add(n)` sets the result to true, returns no error and leaves the registry
equal to the old one followed by one entry named `n`.  The channel of that
entry was not allocated before and is open afterwards; the channels that were
open stay open and differ from it; the length grows by one. -/
theorem C3_add_appends_fresh_entry (s : State) (n : String) :
    (Add s n).resp = true ∧ (Add s n).err = none ∧
      (Add s n).state.queue = s.queue ++ [⟨n, some s.chans.length⟩] ∧
      s.chans[s.chans.length]? = none ∧
      isOpen (Add s n).state (some s.chans.length) = true ∧
      (∀ c, isOpen s c = true → isOpen (Add s n).state c = true ∧ c ≠ some s.chans.length) ∧
      (Add s n).state.queue.length = s.queue.length + 1 := by
  refine ⟨rfl, rfl, rfl, by simp, by simp [Add_state, isOpen], ?_, by simp [Add_state]⟩
  intro c hc
  obtain ⟨id, rfl, hid⟩ := isOpen_cases s c hc
  have hlt : id < s.chans.length := by
    by_contra hge
    rw [List.getElem?_eq_none (Nat.le_of_not_lt hge)] at hid
    cases hid
  constructor
  · simp [Add_state, isOpen, List.getElem?_append_left hlt, hid]
  · intro h
    simp only [Option.some.injEq] at h
    omega

/-- C4: after any sequence of calls served one after the other from the
initial state, the calls all return and the number of entries named `X` is the
number of calls `Add(X)` minus the number of calls `Delete(X)` that found a
matching entry. -/
theorem C4_entries_named_count (cs : List Call) (X : String) :
    ∃ s, run init cs = .ok s ∧
      named X s.queue = adds X cs - matchedDeletes X init cs ∧
      matchedDeletes X init cs ≤ adds X cs := by
  obtain ⟨s, hs, _, hcount⟩ := run_count X cs init init_wellFormed
  refine ⟨s, hs, ?_, ?_⟩
  · have h0 : named X init.queue = 0 := rfl
    omega
  · have h0 : named X init.queue = 0 := rfl
    omega

/-- C5 (fails): a schedule of the two concurrent calls `Add("A")` and
`Add("B")` on the registered receiver in which the first call writes its name
and its channel into the receiver, the second call overwrites both, and then
each call appends the receiver.  Both calls return true; the registry holds
two entries named "B" that share channel 1, no entry is named "A", and both
runners are started on the same handle. -/
theorem C5_concurrent_adds_lose_entry :
    runSched twoAdds [0, 0, 0, 1, 1, 1, 0, 0, 0, 0, 0, 0, 0, 1, 1, 1, 1, 1, 1, 1] = .ok
      { s := { queue := [⟨"B", some 1⟩, ⟨"B", some 1⟩], t := ⟨"B", some 1⟩,
               chans := [false, false], wg := 2,
               out := ["[RPC] ADD TASK A", "[RPC] ADD TASK B"],
               spawned := [⟨"B", some 1⟩, ⟨"B", some 1⟩] },
        locked := false,
        threads := [⟨"A", .returned, 0, false, true⟩, ⟨"B", .returned, 0, false, true⟩] } := by
  decide

/-- C6 (fails as stated): `Add("")` in the initial state returns no error,
sets the result to true and adds an entry with the empty name; `Delete("")`
then returns no error, sets the result to true and removes that entry. -/
theorem C6_empty_name_is_served :
    (Add init "").err = none ∧ (Add init "").resp = true ∧
      (Add init "").state.queue = [⟨"", some 0⟩] ∧
      (Add init "").state.queue ≠ init.queue ∧
      ∃ r, Delete (Add init "").state "" = .ok r ∧ r.err = none ∧ r.resp = true ∧
        r.state.queue = [] ∧ r.state.queue ≠ (Add init "").state.queue := by
  refine ⟨rfl, rfl, rfl, by decide, ?_⟩
  exact ⟨{ state := { queue := [], t := ⟨"", some 0⟩, chans := [true], wg := 1,
                      out := ["[RPC] ADD TASK ", "[RPC] DEL TASK ", ""],
                      spawned := [⟨"", some 0⟩] },
           resp := true, err := none }, by decide, rfl, rfl, rfl, by decide⟩

/-- C6 (amended): the empty name is served like any other name.  `Add("")`
returns no error, sets the result to true and appends an entry named "".
When the entries named "" have open stop signals, `Delete("")` returns no
error, sets the result to true and removes the first entry named "" if there
is one; it leaves the registry unchanged when there is none. -/
theorem C6_empty_name_like_any_other (s : State)
    (hopen : ∀ e ∈ s.queue, e.TaskName = "" → isOpen s e.TaskDoneChan = true) :
    (Add s "").resp = true ∧ (Add s "").err = none ∧
      (Add s "").state.queue = s.queue ++ [⟨"", some s.chans.length⟩] ∧
      ∃ r, Delete s "" = .ok r ∧ r.resp = true ∧ r.err = none ∧
        r.state.queue = s.queue.eraseP (fun e => decide (e.TaskName = "")) := by
  refine ⟨rfl, rfl, rfl, ?_⟩
  by_cases hex : ∃ e ∈ s.queue, e.TaskName = ""
  · obtain ⟨pre, e, post, hq, hpre, he⟩ := first_match "" s.queue hex
    have hmem : e ∈ s.queue := by rw [hq]; simp
    obtain ⟨id, hc, hid⟩ := isOpen_cases s _ (hopen e hmem he)
    refine ⟨_, Delete_match s "" pre post e id hq hpre he hc hid, rfl, rfl, ?_⟩
    rw [hq, List.eraseP_append_right _ (by simpa using hpre),
      List.eraseP_cons_of_pos (by simpa using he)]
  · have hno : ∀ e ∈ s.queue, e.TaskName ≠ "" := fun e he hn => hex ⟨e, he, hn⟩
    refine ⟨_, Delete_no_match s "" hno, rfl, rfl, ?_⟩
    rw [List.eraseP_of_forall_not (by simpa using hno)]

theorem C6_empty_name_like_any_other_witness :
    (∀ e ∈ (Add sample "").state.queue, e.TaskName = "" →
        isOpen (Add sample "").state e.TaskDoneChan = true) ∧
      (Add (Add sample "").state "").resp = true ∧ (Add (Add sample "").state "").err = none ∧
      (Add (Add sample "").state "").state.queue
        = (Add sample "").state.queue ++ [⟨"", some (Add sample "").state.chans.length⟩] ∧
      ∃ r, Delete (Add sample "").state "" = .ok r ∧ r.resp = true ∧ r.err = none ∧
        r.state.queue
          = (Add sample "").state.queue.eraseP (fun e => decide (e.TaskName = "")) :=
  ⟨by decide, C6_empty_name_like_any_other (Add sample "").state (by decide)⟩

/-- C7: when no entry is named `n`, `Add(n)` followed by `Delete(n)` returns
the registry to what it was, and the channel closed by the `Delete` is the one
allocated by the `Add`: every other channel is as before. -/
theorem C7_add_then_delete_restores (s : State) (n : String)
    (hno : ∀ e ∈ s.queue, e.TaskName ≠ n) :
    ∃ r, Delete (Add s n).state n = .ok r ∧ r.state.queue = s.queue ∧
      (Add s n).state.t.TaskDoneChan = some s.chans.length ∧
      (Add s n).state.chans = s.chans ++ [false] ∧
      r.state.chans = s.chans ++ [true] := by
  have h := Delete_match (Add s n).state n s.queue [] ⟨n, some s.chans.length⟩ s.chans.length
    rfl hno rfl rfl (by simp [Add_state])
  refine ⟨_, h, by simp, rfl, rfl, ?_⟩
  simp [Add_state]

theorem C7_add_then_delete_restores_witness :
    (∀ e ∈ sample.queue, e.TaskName ≠ "backup") ∧
      ∃ r, Delete (Add sample "backup").state "backup" = .ok r ∧
        r.state.queue = sample.queue ∧
        (Add sample "backup").state.t.TaskDoneChan = some sample.chans.length ∧
        (Add sample "backup").state.chans = sample.chans ++ [false] ∧
        r.state.chans = sample.chans ++ [true] :=
  ⟨by decide, C7_add_then_delete_restores sample "backup" (by decide)⟩

/-- C8: every sequence of calls served one after the other from the initial
state runs without a panic, so no `close` meets a closed channel, and in the
state it reaches every entry of the registry has an open stop signal and no
two entries share a stop signal. -/
theorem C8_stop_signal_closed_once (cs : List Call) :
    ∃ s, run init cs = .ok s ∧ (∀ e ∈ s.queue, isOpen s e.TaskDoneChan = true) ∧
      (s.queue.map (fun e => e.TaskDoneChan)).Nodup := by
  obtain ⟨s, hs, hopen, hnd⟩ := run_wellFormed cs init init_wellFormed
  exact ⟨s, hs, hopen, hnd⟩

/-- C9 (fails): two concurrent calls `Delete("x")` on the registry that holds
one entry named "x".  The first call scans, matches index 0 and closes the
channel, all without the mutex; before it takes the mutex the second call
scans the same slice and matches the same entry, with the mutex still free,
and its `close` panics on the closed channel. -/
theorem C9_delete_scans_outside_lock :
    runSched twoDeletes [0, 0, 0, 0, 0, 0, 0, 1, 1, 1, 1, 1, 1] = .ok
        { s := { queue := [⟨"x", some 0⟩], t := ⟨"x", some 0⟩, chans := [true], wg := 1,
                 out := ["[RPC] ADD TASK x", "[RPC] DEL TASK x", "x", "[RPC] DEL TASK x", "x"],
                 spawned := [⟨"x", some 0⟩] },
          locked := false,
          threads := [⟨"x", .l68, 0, false, false⟩, ⟨"x", .l67, 0, false, false⟩] } ∧
      runSched twoDeletes [0, 0, 0, 0, 0, 0, 0, 1, 1, 1, 1, 1, 1, 1]
        = .panic "close of closed channel" := by
  decide

/-- C10: given a positive outstanding-task counter, the runner fed a sequence
of select outcomes either meets a first `done` after ticks at the times `cs`,
and then has printed one tick line per tick, then the line for the
termination, has decremented the counter once and has returned, ignoring the
outcomes after the `done`; or it meets no `done`, and then has printed one
tick line per tick and still waits in its loop. -/
theorem C10_runner_ticks_until_stopped (t : TaskUnit) (events : List Select) (s : State)
    (hwg : 0 < s.wg) :
    (∃ (cs : List String) (post : List Select),
        events = cs.map Select.tick ++ Select.done :: post ∧
        execute t events s = .returned
          { s with out := s.out ++ cs.map (tickLine t) ++ ["Task " ++ t.TaskName ++ " Done"],
                   wg := s.wg - 1 } true) ∨
      (∃ cs : List String, events = cs.map Select.tick ∧
        execute t events s = .waiting { s with out := s.out ++ cs.map (tickLine t) }) := by
  rcases select_split events with ⟨cs, post, h⟩ | ⟨cs, h⟩
  · refine Or.inl ⟨cs, post, h, ?_⟩
    rw [h, execute_ticks]
    obtain ⟨k, hk⟩ : ∃ k, s.wg = k + 1 := ⟨s.wg - 1, by omega⟩
    simp [execute, wgDone, println, hk]
  · refine Or.inr ⟨cs, h, ?_⟩
    have h2 := execute_ticks t [] cs s
    rw [List.append_nil] at h2
    rw [h, h2]
    rfl

theorem C10_runner_ticks_until_stopped_witness :
    0 < (Add init "backup").state.wg ∧
      ((∃ (cs : List String) (post : List Select),
          sampleEvents = cs.map Select.tick ++ Select.done :: post ∧
          execute backup sampleEvents (Add init "backup").state = .returned
            { (Add init "backup").state with
                out := (Add init "backup").state.out ++ cs.map (tickLine backup)
                  ++ ["Task " ++ backup.TaskName ++ " Done"],
                wg := (Add init "backup").state.wg - 1 } true) ∨
        (∃ cs : List String, sampleEvents = cs.map Select.tick ∧
          execute backup sampleEvents (Add init "backup").state = .waiting
            { (Add init "backup").state with
                out := (Add init "backup").state.out ++ cs.map (tickLine backup) })) :=
  ⟨by decide, C10_runner_ticks_until_stopped backup sampleEvents (Add init "backup").state
    (by decide)⟩

end GoTask
